import Mathlib

/-!
Verification of `gitlab_compare.py` (repository `fbruandrade/relatorio-gitlab`).

This file shallowly embeds the Python source: raw remote project records
become structures of optional fields (a `none` field models an absent
attribute), Python truthiness (`x or y`) becomes explicit helpers over
`Option String`, the paginated fetch loop becomes a fuel-indexed recursion
over an abstract remote (a function from page number and per-page attempt
index to a page response), and IO effects (logging, exit codes) become
explicit state passing.  All definitions are executable.
-/

set_option maxHeartbeats 1000000

/-- Python truthiness for an optional string: `None` and `""` are falsy.
Models checks like `if not args.url1` and the fallbacks `a or b`. -/
def strFalsy : Option String → Bool
  | none => true
  | some s => s.isEmpty

/-- Python `a or b` on optional strings: if `a` is `None` or `""`, the
result is `b`, else `a` (source lines 78, 82, 83). -/
def pyOrStr (a b : Option String) : Option String :=
  if strFalsy a then b else a

/-- The namespace descriptor attached to a raw project: a dictionary with
optional keys `full_path`, `name`, `path` (source line 78 reads it with
`ns.get`). -/
structure RawNamespace where
  full_path : Option String
  name : Option String
  path : Option String
deriving DecidableEq, Repr

/-- A raw project record as returned by the remote listing API.  Every
attribute the source reads via `getattr(p, ..., None)` is optional; `nspace`
models the source attribute `namespace` (a Lean keyword). -/
structure RawProject where
  nspace : Option RawNamespace
  path_with_namespace : Option String
  path : Option String
  name : Option String
  web_url : Option String
  visibility : Option String
  id : Option Int
deriving DecidableEq, Repr

/-- A normalized project record: the six always-present string fields the
source builds at lines 88-95. -/
structure ProjectRecord where
  id : String
  name : String
  group : String
  path : String
  web_url : String
  visibility : String
deriving DecidableEq, Repr

/-- Source line 82: `path = getattr(p, 'path_with_namespace', None) or
getattr(p, 'path', None)`. -/
def rawCombinedPath (p : RawProject) : Option String :=
  pyOrStr p.path_with_namespace p.path

/-- Python `s.split('/')` for a single-character separator: split the
character list on the separator.  `''.split('/')` is `['']`, as in
Python. -/
def pySplit (s : String) (sep : Char) : List String :=
  (s.data.splitOn sep).map List.asString

/-- Source line 83: `name = getattr(p, 'name', None) or
(path.split('/')[-1] if isinstance(path, str) else None)`. -/
def rawNameField (p : RawProject) : Option String :=
  pyOrStr p.name
    (match rawCombinedPath p with
     | some s => some ((pySplit s '/').getLastD "")
     | none => none)

/-- Source lines 75-80: `ns = getattr(p, 'namespace', None) or {}`, then
`namespace = ns.get('full_path') or ns.get('name') or ns.get('path')`. -/
def rawNamespaceField (p : RawProject) : Option String :=
  match p.nspace with
  | none => none
  | some n => pyOrStr (pyOrStr n.full_path n.name) n.path

/-- Source lines 73-95, `normalize_project`: total normalization of a raw
project into the six-field record, with `x or ''` defaults. -/
def normalize_project (p : RawProject) : ProjectRecord :=
  { id := match p.id with
          | some i => toString i
          | none => ""
  , name := (rawNameField p).getD ""
  , group := (rawNamespaceField p).getD ""
  , path := (rawCombinedPath p).getD ""
  , web_url := p.web_url.getD ""
  , visibility := p.visibility.getD "" }

/-- Modelled from the spec's words for the `group` fallback chain (claim
C6): try namespace `full_path`, then `name`, then `path`, then the empty
string, moving to the next source when the prior one is absent or the
empty string.  Used only to be compared with the code-derived
`rawNamespaceField`. -/
def firstPresent : List (Option String) → String
  | [] => ""
  | none :: rest => firstPresent rest
  | some s :: rest => if s.isEmpty then firstPresent rest else s

/-- Modelled from the spec's words (claim C6): the `group` field per the
specification's four-level fallback. -/
def groupSpec (p : RawProject) : String :=
  match p.nspace with
  | none => ""
  | some n => firstPresent [n.full_path, n.name, n.path]

/-- A Python `dict` keyed by strings holding project records, modelled as
an association list in insertion order. -/
abbrev PyDict := List (String × ProjectRecord)

/-- Python `d[k] = v`: replace the value at an existing key in place,
otherwise append the binding at the end. -/
def dictSet (d : PyDict) (k : String) (v : ProjectRecord) : PyDict :=
  if d.any (fun kv => kv.1 == k) then
    d.map (fun kv => if kv.1 == k then (kv.1, v) else kv)
  else
    d ++ [(k, v)]

/-- Python `d.get(k)` / `d[k]` combined with `k in d`: the value bound to
`k`, if any. -/
def dictGet (d : PyDict) (k : String) : Option ProjectRecord :=
  (d.find? (fun kv => kv.1 == k)).map (fun kv => kv.2)

/-- Source line 178: `index2 = \x7bp['path']: p for p in list2 if
p.get('path')\x7d` — a dict comprehension, so later records with the same
path overwrite earlier ones. -/
def buildIndex2 (list2 : List ProjectRecord) : PyDict :=
  list2.foldl (fun d p => if p.path.isEmpty then d else dictSet d p.path p) []

/-- Source lines 177-184, `compare_by_path`: scan `list1` in order and pair
each record having a non-empty path present in the index with the indexed
record from `list2`. -/
def compare_by_path (list1 list2 : List ProjectRecord) :
    List (ProjectRecord × ProjectRecord) :=
  let index2 := buildIndex2 list2
  list1.filterMap (fun p1 =>
    if p1.path.isEmpty then none
    else (dictGet index2 p1.path).map (fun p2 => (p1, p2)))

/-- A page response from the remote listing API: either a list of raw
records or an error carrying an optional HTTP status code (modelling
`getattr(e, 'response_code', None)` at source line 150). -/
inductive PageResp where
  | success (items : List RawProject)
  | failure (code : Option Int)
deriving DecidableEq, Repr

/-- The abstract remote: given a page number and the attempt index for that
page (how many requests for it were already made), the response of the
next request.  This abstracts `gl.projects.list(page=page, per_page=...)`
at source line 146. -/
def Remote : Type := Nat → Nat → PageResp

/-- Observable events of one fetch: a page request made while the per-page
attempt counter holds the given value, or a backoff sleep of the given
duration in seconds (`time.sleep(sleep_for)` at source line 160). -/
inductive Event where
  | request (page : Nat) (attempt : Nat)
  | sleep (seconds : ℚ)
deriving DecidableEq, Repr

/-- Source line 151: an error is transient exactly when its response code
is in `\x7b429, 500, 502, 503, 504\x7d`; an absent code is not transient. -/
def transient (code : Option Int) : Bool :=
  code == some 429 || code == some 500 || code == some 502 ||
    code == some 503 || code == some 504

/-- Source lines 141-160, the inner retry loop of `fetch_projects`: request
`page`; on success break with the items; on failure retry (after a sleep of
`retry_backoff ** attempt` with the incremented attempt counter) only when
the error is transient and the attempt counter is below `max_retries`,
otherwise re-raise.  Returns the event trace and the outcome.
`maxRetries` is an `Int` because the Python argument may be negative. -/
def fetchPageLoop (r : Remote) (maxRetries : Int) (backoff : ℚ)
    (page : Nat) (attempt : Nat) :
    List Event × Except (Option Int) (List RawProject) :=
  match r page attempt with
  | .success items => ([Event.request page attempt], Except.ok items)
  | .failure code =>
      if h : transient code = true ∧ (attempt : Int) < maxRetries then
        let rest := fetchPageLoop r maxRetries backoff page (attempt + 1)
        (Event.request page attempt :: Event.sleep (backoff ^ (attempt + 1)) :: rest.1,
         rest.2)
      else
        ([Event.request page attempt], Except.error code)
termination_by (maxRetries - (attempt : Int)).toNat
decreasing_by
  obtain ⟨-, h2⟩ := h
  omega

/-- Outcome of a whole fetch: the complete normalized sequence, a
propagated error (no partial sequence), or fuel exhaustion.  The fuel only
models the unbounded `while True` page loop of the source (which has no
safety cutoff); a real run corresponds to a sufficiently large fuel. -/
inductive FetchOut where
  | ok (projects : List ProjectRecord)
  | err (code : Option Int)
  | fuelOut
deriving DecidableEq, Repr

/-- Source lines 138-174, the outer page loop of `fetch_projects`: starting
from `page`, request pages with a fresh attempt counter of 0 each, append
each non-empty page's normalized records to the accumulator, stop
successfully at the first empty page, and propagate any error from the
retry loop. -/
def fetchLoop (r : Remote) (maxRetries : Int) (backoff : ℚ) :
    Nat → Nat → List ProjectRecord → List Event × FetchOut
  | 0, _, _ => ([], FetchOut.fuelOut)
  | fuel + 1, page, acc =>
    match fetchPageLoop r maxRetries backoff page 0 with
    | (evs, Except.error code) => (evs, FetchOut.err code)
    | (evs, Except.ok items) =>
      if items.isEmpty then
        (evs, FetchOut.ok acc)
      else
        (evs ++ (fetchLoop r maxRetries backoff fuel (page + 1)
            (acc ++ items.map normalize_project)).1,
         (fetchLoop r maxRetries backoff fuel (page + 1)
            (acc ++ items.map normalize_project)).2)

/-- Source lines 124-174, `fetch_projects`: paginate from page 1 with an
empty accumulator.  Connection setup and `per_page` clamping are abstracted
into the `Remote`. -/
def fetch_projects (r : Remote) (maxRetries : Int) (backoff : ℚ)
    (fuel : Nat) : List Event × FetchOut :=
  fetchLoop r maxRetries backoff fuel 1 []

/-- Source lines 133-136: the page size is capped at 100 and non-positive
values are coerced to 100. -/
def clampPerPage (perPage : Int) : Int :=
  if perPage > 100 then 100 else if perPage ≤ 0 then 100 else perPage

/-- A remote whose pages are given by a finite list (page `i + 1` returns
`pages[i]`) and which returns an empty page past the end; every request
succeeds. -/
def remoteOfPages (pages : List (List RawProject)) : Remote :=
  fun page _ => PageResp.success ((pages.drop (page - 1)).headD [])

/-- A remote whose first `pages.length` pages succeed with the given lists
and whose every later request fails with code `c`. -/
def remoteFailAfter (pages : List (List RawProject)) (c : Option Int) : Remote :=
  fun page _ =>
    if page ≤ pages.length then PageResp.success ((pages.drop (page - 1)).headD [])
    else PageResp.failure c

/-- Simplified `os.path.dirname` for the relative slash-separated paths the
tool handles: everything before the last `/`, or `""` when there is no
separator (source line 102). -/
def osPathDirname (p : String) : String :=
  if (pySplit p '/').length ≤ 1 then ""
  else String.intercalate "/" (pySplit p '/').dropLast

/-- Observable world state touched by the logger: lines written to standard
error, lines appended to the log file, and directories created. -/
structure LogWorld where
  stderrLines : List String
  fileLines : List String
  dirs : List String
deriving DecidableEq, Repr

/-- Source lines 107-108: the formatted log line `"[<timestamp>] <msg>\n"`
(the timestamp string is supplied by the clock). -/
def logLine (ts msg : String) : String :=
  "[" ++ ts ++ "] " ++ msg ++ "\n"

/-- Source lines 99-104, `_Logger.__init__`: when a log file is configured
and its directory part is non-empty, `os.makedirs` runs UNGUARDED — a
directory-creation failure (modelled by `mkdirOk = false`) propagates as an
exception (`Except.error`) instead of being swallowed. -/
def loggerInit (logFile : Option String) (mkdirOk : Bool) (w : LogWorld) :
    Except String LogWorld :=
  match logFile with
  | none => Except.ok w
  | some f =>
    let d := osPathDirname f
    if d.isEmpty then Except.ok w
    else if mkdirOk then Except.ok { w with dirs := w.dirs ++ [d] }
    else Except.error "makedirs raised"

/-- Source lines 106-121, `_Logger.log`: write the line to standard error
(failures swallowed, modelled by `stderrOk`), then, when a file is
configured, append the identical line to it (failures swallowed, modelled
by `fileOk`).  The function is total: a log call never raises. -/
def loggerLog (logFile : Option String) (stderrOk fileOk : Bool)
    (w : LogWorld) (ts msg : String) : LogWorld :=
  let line := logLine ts msg
  let w1 := if stderrOk then { w with stderrLines := w.stderrLines ++ [line] } else w
  match logFile with
  | none => w1
  | some _ => if fileOk then { w1 with fileLines := w1.fileLines ++ [line] } else w1

/-- The post-parse argument values `parse_args` validates (source lines
283-318).  `json_pfx` and `csv_pfx` model the `--json-prefix` and
`--csv-prefix` options. -/
structure ArgsIn where
  url1 : Option String
  token1 : Option String
  url2 : Option String
  token2 : Option String
  out_json : Option String
  out_csv : Option String
  json_pfx : Option String
  csv_pfx : Option String
deriving DecidableEq, Repr

/-- Source lines 304-318: the validation performed by `parse_args` after
argparse parsing, in source order — missing connection parameters first,
then the combined-output mutual exclusion, then the no-output check.  An
`Except.error` models `parser.error`, which prints usage and exits. -/
def parse_args_check (a : ArgsIn) : Except String ArgsIn :=
  if strFalsy a.url1 || strFalsy a.token1 || strFalsy a.url2 || strFalsy a.token2 then
    Except.error "missing parameters"
  else if !strFalsy a.out_json && !strFalsy a.out_csv then
    Except.error "out-json and out-csv are mutually exclusive"
  else if strFalsy a.out_json && strFalsy a.out_csv &&
      strFalsy a.json_pfx && strFalsy a.csv_pfx then
    Except.error "no output destination"
  else
    Except.ok a

/-- True when `parse_args_check` rejects the arguments. -/
def parseRejects (a : ArgsIn) : Bool :=
  match parse_args_check a with
  | Except.error _ => true
  | Except.ok _ => false

/-- Modelled from Python's argparse semantics: `parser.error` (used by
`parse_args` at lines 310, 314, 316) prints a usage message and calls
`parser.exit(2)`, so every usage error terminates the process with
status 2. -/
def argparseUsageExitCode : Int := 2

/-- The exception classes distinguished by `main`'s `try/except` chain at
source lines 338-346. -/
inductive FetchExc where
  | authErr
  | gitlabErr
  | otherErr
deriving DecidableEq, Repr

/-- Source lines 327-362: the exit code `main` returns for a fetch outcome —
0 on success, 2 for `GitlabAuthenticationError`, 3 for any other
`GitlabError`, 1 for an unexpected exception. -/
def runtimeExitCode : Except FetchExc Unit → Int
  | Except.ok _ => 0
  | Except.error FetchExc.authErr => 2
  | Except.error FetchExc.gitlabErr => 3
  | Except.error FetchExc.otherErr => 1

/-- Source lines 321-362 plus the `sys.exit(main(...))` entry: the process
exit code together with whether any network activity happened.  `main`
calls `parse_args` first, so a usage error exits (with argparse's status 2)
before any connection is attempted; otherwise the fetches run and the
outcome is mapped through the `except` chain. -/
def mainModel (a : ArgsIn) (fetchResult : Except FetchExc Unit) : Int × Bool :=
  match parse_args_check a with
  | Except.error _ => (argparseUsageExitCode, false)
  | Except.ok _ => (runtimeExitCode fetchResult, true)

/-- Sample raw record: all attributes present. -/
def rawFull : RawProject :=
  { nspace := some { full_path := some "grp/sub", name := some "Sub", path := some "sub" }
  , path_with_namespace := some "grp/sub/proj"
  , path := some "proj"
  , name := some "Proj"
  , web_url := some "https://gl/grp/sub/proj"
  , visibility := some "private"
  , id := some 7 }

/-- Sample raw record: every attribute absent. -/
def rawEmpty : RawProject :=
  { nspace := none, path_with_namespace := none, path := none
  , name := none, web_url := none, visibility := none, id := none }

/-- Sample raw record: no `path_with_namespace`, only the short `path`
attribute and no name. -/
def rawShortPath : RawProject :=
  { nspace := none, path_with_namespace := none, path := some "proj"
  , name := none, web_url := none, visibility := none, id := some 3 }

/-- Sample normalized record with path `g/x`, from instance 1. -/
def recX1 : ProjectRecord :=
  { id := "9", name := "X", group := "g", path := "g/x"
  , web_url := "u", visibility := "public" }

/-- Sample normalized record with path `g/x` (first duplicate in
instance 2). -/
def recA : ProjectRecord :=
  { id := "1", name := "A", group := "g", path := "g/x"
  , web_url := "u1", visibility := "public" }

/-- Sample normalized record with path `g/x` (second duplicate in
instance 2). -/
def recB : ProjectRecord :=
  { id := "2", name := "B", group := "g", path := "g/x"
  , web_url := "u2", visibility := "public" }

/-- Sample argument set requesting both combined output formats at once
(a usage error). -/
def argsBothOutputs : ArgsIn :=
  { url1 := some "u1", token1 := some "t1", url2 := some "u2"
  , token2 := some "t2", out_json := some "a.json", out_csv := some "b.csv"
  , json_pfx := none, csv_pfx := none }

/-- Helper: `s.isEmpty = false` exactly when `s` is not the empty string. -/
theorem isEmpty_false_of_ne {s : String} (h : s ≠ "") : s.isEmpty = false := by
  cases he : s.isEmpty
  · rfl
  · exact absurd ((String.isEmpty_iff _).mp he) h

/-- C6: for every raw record, normalization is total (it always yields the
six-field string record by construction of `normalize_project`), the
`group` field follows the spec's fallback chain full_path then name then
path then `""` (skipping absent or empty sources), and when the remote
name is absent the `name` field is the last `/`-segment of the normalized
path. -/
theorem normalize_project_total_fallbacks (p : RawProject) :
    (normalize_project p).group = groupSpec p ∧
    (p.name = none →
      (normalize_project p).name =
        (pySplit (normalize_project p).path '/').getLastD "") := by
  constructor
  · rcases p with ⟨ns, pwn, pa, nm, wu, vis, pid⟩
    rcases ns with _ | ⟨fp, nn, np⟩
    · simp [normalize_project, groupSpec, rawNamespaceField]
    · rcases fp with _ | s₁ <;> rcases nn with _ | s₂ <;> rcases np with _ | s₃ <;>
        simp [normalize_project, groupSpec, rawNamespaceField, firstPresent,
          pyOrStr, strFalsy] <;>
        split_ifs <;> simp_all [firstPresent, String.isEmpty_iff]
  · intro hname
    cases hp : rawCombinedPath p with
    | none =>
      simp [normalize_project, rawNameField, hp, hname, pyOrStr, strFalsy]
      decide
    | some s =>
      simp [normalize_project, rawNameField, hp, hname, pyOrStr, strFalsy]

/-- Witness for C6 at the record with every attribute absent. -/
theorem normalize_project_total_fallbacks_witness :
    (normalize_project rawEmpty).name =
      (pySplit (normalize_project rawEmpty).path '/').getLastD "" :=
  (normalize_project_total_fallbacks rawEmpty).2 rfl

/-- Counterexample to C7: `rawShortPath` has no `path_with_namespace`
(the full namespaced path is unavailable), yet the normalized `path` is the
short `path` attribute `"proj"`, not the empty string the claim requires. -/
theorem normalize_project_path_cex :
    rawShortPath.path_with_namespace = none ∧
    (normalize_project rawShortPath).path = "proj" ∧
    (normalize_project rawShortPath).path ≠ "" := by
  refine ⟨rfl, rfl, ?_⟩
  decide

/-- C7 amended: the normalized `path` equals `path_with_namespace` when
that attribute is present and non-empty; when it is absent or empty the
code falls back to the short `path` attribute (defaulting to the empty
string only when that too is absent). -/
theorem normalize_project_path_fallback (p : RawProject) :
    (∀ s, p.path_with_namespace = some s → s ≠ "" →
      (normalize_project p).path = s) ∧
    (strFalsy p.path_with_namespace = true →
      (normalize_project p).path = p.path.getD "") := by
  constructor
  · intro s hs hne
    simp [normalize_project, rawCombinedPath, pyOrStr, strFalsy, hs,
      isEmpty_false_of_ne hne]
  · intro h
    simp [normalize_project, rawCombinedPath, pyOrStr, h]

/-- Witness for the amended C7 at a record with a non-empty full path. -/
theorem normalize_project_path_fallback_witness :
    (normalize_project rawFull).path = "grp/sub/proj" :=
  (normalize_project_path_fallback rawFull).1 "grp/sub/proj" rfl (by decide)

/-- Helper: lookup on a cons cell checks the head key first. -/
theorem dictGet_cons (x : String × ProjectRecord) (d : PyDict) (k : String) :
    dictGet (x :: d) k = if x.1 = k then some x.2 else dictGet d k := by
  by_cases h : x.1 = k
  · rw [dictGet, List.find?_cons_of_pos _ (by simp [h]), if_pos h]
    rfl
  · rw [dictGet, List.find?_cons_of_neg _ (by simp [h]), if_neg h]
    rfl

/-- Helper: looking a key up after replacing the value of `k'` everywhere
leaves other keys untouched and rewrites `k'` where it was present. -/
theorem dictGet_map_replace (d : PyDict) (k' : String) (v : ProjectRecord)
    (k : String) :
    dictGet (d.map (fun kv => if kv.1 == k' then (kv.1, v) else kv)) k =
      (dictGet d k).map (fun w => if k = k' then v else w) := by
  induction d with
  | nil => rfl
  | cons kv rest ih =>
    have hfst : (if kv.1 == k' then (kv.1, v) else kv).1 = kv.1 := by
      by_cases h : kv.1 = k' <;> simp [h]
    have hsnd : (if kv.1 == k' then (kv.1, v) else kv).2 =
        if kv.1 = k' then v else kv.2 := by
      by_cases h : kv.1 = k' <;> simp [h]
    rw [List.map_cons, dictGet_cons, dictGet_cons, hfst, hsnd]
    by_cases hk : kv.1 = k
    · subst hk
      rw [if_pos rfl, if_pos rfl]
      by_cases hk' : kv.1 = k' <;> simp [hk']
    · rw [if_neg hk, if_neg hk, ih]

/-- Helper: when a key is bound in the dictionary, lookup succeeds. -/
theorem dictGet_isSome_of_any (d : PyDict) (k : String)
    (h : d.any (fun kv => kv.1 == k) = true) : ∃ w, dictGet d k = some w := by
  unfold dictGet
  rw [List.any_eq_true] at h
  have hs : (d.find? (fun kv => kv.1 == k)).isSome := List.find?_isSome.mpr h
  obtain ⟨y, hy⟩ := Option.isSome_iff_exists.mp hs
  exact ⟨y.2, by rw [hy]; rfl⟩

/-- Helper: Python dict assignment followed by lookup — the assigned key
now maps to the new value, other keys are unchanged. -/
theorem dictGet_dictSet (d : PyDict) (k' : String) (v : ProjectRecord)
    (k : String) :
    dictGet (dictSet d k' v) k = if k' = k then some v else dictGet d k := by
  unfold dictSet
  by_cases hany : d.any (fun kv => kv.1 == k') = true
  · simp only [hany, if_true]
    rw [dictGet_map_replace]
    by_cases hkk : k' = k
    · subst hkk
      obtain ⟨w, hw⟩ := dictGet_isSome_of_any d k' hany
      simp [hw]
    · have : ¬k = k' := fun h => hkk h.symm
      simp only [this, if_false, hkk]
      cases dictGet d k <;> simp
  · simp only [Bool.not_eq_true] at hany
    simp only [hany, Bool.false_eq_true, if_false]
    unfold dictGet
    rw [List.find?_append]
    by_cases hkk : k' = k
    · subst hkk
      have hnone : d.find? (fun kv => kv.1 == k') = none := by
        rw [List.find?_eq_none]
        intro x hx hc
        have hall := List.any_eq_false.mp hany
        exact absurd hc (by simpa using hall x hx)
      simp [hnone, List.find?]
    · have hkb : (k' == k) = false := by simp [hkk]
      cases hd : d.find? (fun kv => kv.1 == k) with
      | some w => simp [hd, hkk]
      | none => simp [hd, List.find?, hkb, hkk]

/-- Helper: folding the index-building step over a list updates lookups so
that the LAST matching record of the list wins, falling back to the
accumulator when no record matches. -/
theorem dictGet_foldl_index (l2 : List ProjectRecord) (d : PyDict) (k : String) :
    dictGet (l2.foldl
        (fun d p => if p.path.isEmpty then d else dictSet d p.path p) d) k =
      match (l2.filter (fun q => !q.path.isEmpty && q.path == k)).getLast? with
      | some w => some w
      | none => dictGet d k := by
  induction l2 generalizing d with
  | nil => rfl
  | cons p rest ih =>
    rw [List.foldl_cons, List.filter_cons]
    by_cases hp : p.path.isEmpty
    · simp only [hp, if_true, Bool.not_true, Bool.false_and, if_false]
      exact ih d
    · simp only [hp, Bool.false_eq_true, if_false, Bool.not_false, Bool.true_and]
      by_cases hk : p.path = k
      · have hkb : (p.path == k) = true := by simp [hk]
        rw [hkb, if_pos rfl, ih (dictSet d p.path p)]
        cases hfr : (rest.filter (fun q => !q.path.isEmpty && q.path == k)).getLast? with
        | some w => simp [List.getLast?_cons, hfr]
        | none =>
          simp only [List.getLast?_cons, hfr]
          rw [dictGet_dictSet, if_pos hk]
          cases hfr2 : rest.filter (fun q => !q.path.isEmpty && q.path == k) <;>
            simp_all [List.getLast?_cons]
      · have hkb : (p.path == k) = false := by simp [hk]
        rw [hkb, if_neg (by simp), ih (dictSet d p.path p)]
        rw [dictGet_dictSet, if_neg hk]

/-- The index over `list2` is a last-write-wins map: looking up a path
yields the LAST record of `list2` with that (non-empty) path. -/
theorem dictGet_buildIndex2 (l2 : List ProjectRecord) (k : String) :
    dictGet (buildIndex2 l2) k =
      (l2.filter (fun q => !q.path.isEmpty && q.path == k)).getLast? := by
  rw [buildIndex2, dictGet_foldl_index]
  cases (l2.filter (fun q => !q.path.isEmpty && q.path == k)).getLast? <;> rfl

/-- Helper: the index lookup succeeds exactly when `list2` has a record
with that non-empty path. -/
theorem dictGet_buildIndex2_isSome (l2 : List ProjectRecord) (k : String) :
    (dictGet (buildIndex2 l2) k).isSome =
      l2.any (fun q => !q.path.isEmpty && q.path == k) := by
  rw [dictGet_buildIndex2]
  cases hf : l2.filter (fun q => !q.path.isEmpty && q.path == k) with
  | nil =>
    have := List.filter_eq_nil_iff.mp hf
    simp only [List.getLast?_nil, Option.isSome_none]
    symm
    rw [List.any_eq_false]
    intro x hx
    exact this x hx
  | cons x xs =>
    have hxmem : x ∈ l2.filter (fun q => !q.path.isEmpty && q.path == k) := by
      rw [hf]; exact List.mem_cons_self x xs
    have ⟨hxl, hxp⟩ := List.mem_filter.mp hxmem
    have hsome : (x :: xs).getLast? ≠ none := by
      cases hxs : (x :: xs).getLast? with
      | none => simp [List.getLast?_cons] at hxs
      | some w => exact fun h => by simp [h] at hxs
    cases hlast : (x :: xs).getLast? with
    | none => exact absurd hlast hsome
    | some w =>
      simp only [Option.isSome_some]
      symm
      rw [List.any_eq_true]
      exact ⟨x, hxl, hxp⟩

/-- Helper: the first components of the comparator's output are exactly
the records of `list1` whose non-empty path occurs (non-empty) in
`list2`, in `list1` order. -/
theorem compare_map_fst (l1 l2 : List ProjectRecord) :
    (compare_by_path l1 l2).map Prod.fst =
      l1.filter (fun p => !p.path.isEmpty &&
        l2.any (fun q => !q.path.isEmpty && q.path == p.path)) := by
  induction l1 with
  | nil => rfl
  | cons p rest ih =>
    rw [compare_by_path, List.filterMap_cons, List.filter_cons]
    by_cases hp : p.path.isEmpty
    · simp only [hp, if_true, Bool.not_true, Bool.false_and, if_false]
      exact ih
    · simp only [hp, Bool.false_eq_true, if_false, Bool.not_false, Bool.true_and]
      have hiff := dictGet_buildIndex2_isSome l2 p.path
      cases hd : dictGet (buildIndex2 l2) p.path with
      | none =>
        rw [hd] at hiff
        simp only [Option.isSome_none] at hiff
        rw [← hiff, Option.map_none', if_neg (by simp)]
        exact ih
      | some b =>
        rw [hd] at hiff
        simp only [Option.isSome_some] at hiff
        rw [← hiff, Option.map_some', if_pos rfl, List.map_cons]
        exact congrArg (List.cons p) ih

/-- Helper: every emitted pair takes its first component from `list1`
(with a non-empty path) and its second component is the LAST record of
`list2` carrying that path. -/
theorem mem_compare_by_path {l1 l2 : List ProjectRecord}
    {a b : ProjectRecord} (h : (a, b) ∈ compare_by_path l1 l2) :
    a ∈ l1 ∧ a.path ≠ "" ∧
      (l2.filter (fun q => !q.path.isEmpty && q.path == a.path)).getLast? =
        some b := by
  rw [compare_by_path, List.mem_filterMap] at h
  obtain ⟨p1, hp1, hf⟩ := h
  by_cases hp : p1.path.isEmpty
  · rw [if_pos hp] at hf
    exact absurd hf (by simp)
  · rw [if_neg hp] at hf
    obtain ⟨p2, hp2, heq⟩ := Option.map_eq_some'.mp hf
    have hab : p1 = a ∧ p2 = b := Prod.mk.injEq .. ▸ Prod.mk.inj heq
    obtain ⟨ha, hb⟩ := hab
    subst ha
    subst hb
    refine ⟨hp1, ?_, ?_⟩
    · intro hc
      rw [hc] at hp
      exact hp rfl
    · rw [← dictGet_buildIndex2]
      exact hp2

/-- C4: the matched pairs are exactly the records of `list1` whose
non-empty path also occurs (non-empty) in `list2` — first components are
that filter of `list1`, in `list1` order — and every pair draws its first
component from `list1`, its second from `list2`, the two share the same
non-empty path, so a record with an empty path never participates in a
match. -/
theorem compare_by_path_match_correct (l1 l2 : List ProjectRecord) :
    (compare_by_path l1 l2).map Prod.fst =
      l1.filter (fun p => !p.path.isEmpty &&
        l2.any (fun q => !q.path.isEmpty && q.path == p.path)) ∧
    ∀ a b, (a, b) ∈ compare_by_path l1 l2 →
      a ∈ l1 ∧ b ∈ l2 ∧ b.path = a.path ∧ a.path ≠ "" := by
  refine ⟨compare_map_fst l1 l2, ?_⟩
  intro a b h
  obtain ⟨ha1, hane, hlast⟩ := mem_compare_by_path h
  have hbmem : b ∈ l2.filter (fun q => !q.path.isEmpty && q.path == a.path) := by
    have hmem : b ∈ (l2.filter
        (fun q => !q.path.isEmpty && q.path == a.path)).getLast? := by
      rw [Option.mem_def]
      exact hlast
    obtain ⟨hne, hb⟩ := List.mem_getLast?_eq_getLast hmem
    rw [hb]
    exact List.getLast_mem hne
  have ⟨hbl2, hbp⟩ := List.mem_filter.mp hbmem
  simp only [Bool.and_eq_true, beq_iff_eq] at hbp
  exact ⟨ha1, hbl2, hbp.2, hane⟩

/-- Witness for C4 at a concrete singleton match. -/
theorem compare_by_path_match_correct_witness :
    recX1 ∈ [recX1] ∧ recA ∈ [recA] ∧ recA.path = recX1.path ∧
      recX1.path ≠ "" :=
  (compare_by_path_match_correct [recX1] [recA]).2 recX1 recA (by decide)

/-- Counterexample to C5: with duplicate paths in instance 2 the LAST
matching record (`recB`), not the first (`recA`), is paired; and with a
duplicate path in instance 1 two pairs are emitted for one distinct path
value. -/
theorem compare_by_path_first_match_cex :
    compare_by_path [recX1] [recA, recB] = [(recX1, recB)] ∧
    recB ≠ recA ∧
    compare_by_path [recX1, recX1] [recA] = [(recX1, recA), (recX1, recA)] := by
  refine ⟨by decide, by decide, by decide⟩

/-- C5 amended: one matched pair is produced per RECORD of `list1` whose
non-empty path occurs in `list2` (duplicate paths in `list1` yield
duplicate pairs), and when `list2` contains several records with the same
path the LAST one is used — the index is last-write-wins. -/
theorem compare_by_path_last_write_wins (l1 l2 : List ProjectRecord) :
    (compare_by_path l1 l2).length =
      (l1.filter (fun p => !p.path.isEmpty &&
        l2.any (fun q => !q.path.isEmpty && q.path == p.path))).length ∧
    ∀ a b, (a, b) ∈ compare_by_path l1 l2 →
      (l2.filter (fun q => !q.path.isEmpty && q.path == a.path)).getLast? =
        some b := by
  constructor
  · rw [← compare_map_fst l1 l2, List.length_map]
  · intro a b h
    exact (mem_compare_by_path h).2.2

/-- Witness for the amended C5: the duplicate-path instance pairs `recX1`
with the last duplicate `recB`. -/
theorem compare_by_path_last_write_wins_witness :
    (([recA, recB] : List ProjectRecord).filter
        (fun q => !q.path.isEmpty && q.path == recX1.path)).getLast? =
      some recB :=
  (compare_by_path_last_write_wins [recX1] [recA, recB]).2 recX1 recB (by decide)

/-- Helper: a successful request ends the retry loop immediately with one
request event. -/
theorem fetchPageLoop_success {r : Remote} {page attempt : Nat}
    {items : List RawProject} (mr : Int) (b : ℚ)
    (h : r page attempt = PageResp.success items) :
    fetchPageLoop r mr b page attempt =
      ([Event.request page attempt], Except.ok items) := by
  rw [fetchPageLoop, h]

/-- Helper: a failure that cannot be retried (non-transient code, or no
remaining budget) propagates after the single request. -/
theorem fetchPageLoop_stop {r : Remote} {page attempt : Nat}
    {c : Option Int} (mr : Int) (b : ℚ)
    (h : r page attempt = PageResp.failure c)
    (hstop : ¬(transient c = true ∧ (attempt : Int) < mr)) :
    fetchPageLoop r mr b page attempt =
      ([Event.request page attempt], Except.error c) := by
  rw [fetchPageLoop, h]
  simp only [dif_neg hstop]

/-- Helper: a transient failure with remaining budget sleeps
`backoff ^ (attempt + 1)` seconds and retries the same page with the
incremented attempt counter. -/
theorem fetchPageLoop_retry {r : Remote} {page attempt : Nat}
    {c : Option Int} (mr : Int) (b : ℚ)
    (h : r page attempt = PageResp.failure c)
    (ht : transient c = true) (hlt : (attempt : Int) < mr) :
    fetchPageLoop r mr b page attempt =
      (Event.request page attempt ::
        Event.sleep (b ^ (attempt + 1)) ::
          (fetchPageLoop r mr b page (attempt + 1)).1,
       (fetchPageLoop r mr b page (attempt + 1)).2) := by
  rw [fetchPageLoop, h]
  simp only [dif_pos (And.intro ht hlt)]

/-- Helper: one step of the page loop on a non-empty successful page. -/
theorem fetchLoop_step_nonempty {r : Remote} {page : Nat}
    {items : List RawProject} {evs : List Event} (mr : Int) (b : ℚ)
    (fuel : Nat) (acc : List ProjectRecord)
    (h : fetchPageLoop r mr b page 0 = (evs, Except.ok items))
    (hne : items.isEmpty = false) :
    fetchLoop r mr b (fuel + 1) page acc =
      (evs ++ (fetchLoop r mr b fuel (page + 1)
          (acc ++ items.map normalize_project)).1,
       (fetchLoop r mr b fuel (page + 1)
          (acc ++ items.map normalize_project)).2) := by
  rw [fetchLoop, h]
  simp [hne]

/-- Helper: one step of the page loop on an empty successful page — the
loop terminates with the accumulator. -/
theorem fetchLoop_step_empty {r : Remote} {page : Nat} {evs : List Event}
    (mr : Int) (b : ℚ) (fuel : Nat) (acc : List ProjectRecord)
    (h : fetchPageLoop r mr b page 0 = (evs, Except.ok [])) :
    fetchLoop r mr b (fuel + 1) page acc = (evs, FetchOut.ok acc) := by
  rw [fetchLoop, h]
  simp

/-- Helper: one step of the page loop on a failing page — the loop
propagates the error, returning no partial sequence. -/
theorem fetchLoop_step_err {r : Remote} {page : Nat} {c : Option Int}
    {evs : List Event} (mr : Int) (b : ℚ) (fuel : Nat)
    (acc : List ProjectRecord)
    (h : fetchPageLoop r mr b page 0 = (evs, Except.error c)) :
    fetchLoop r mr b (fuel + 1) page acc = (evs, FetchOut.err c) := by
  rw [fetchLoop, h]

/-- Helper: a run of non-empty successful pages is consumed one page per
fuel unit: each page is requested exactly once (at attempt 0) and its
normalized records are appended in page order, after which the loop
continues past the run. -/
theorem fetchLoop_prefix (r : Remote) (mr : Int) (b : ℚ)
    (pages : List (List RawProject))
    (hr : ∀ i, i < pages.length →
      r (i + 1) 0 = PageResp.success ((pages.drop i).headD []))
    (hne : ∀ l ∈ pages, l ≠ []) :
    ∀ (suf : List (List RawProject)) (k fuel : Nat) (acc : List ProjectRecord),
      pages.drop k = suf → k + suf.length = pages.length →
      fetchLoop r mr b (fuel + suf.length) (k + 1) acc =
        ((List.range suf.length).map (fun i => Event.request (i + k + 1) 0) ++
          (fetchLoop r mr b fuel (pages.length + 1)
            (acc ++ suf.flatten.map normalize_project)).1,
         (fetchLoop r mr b fuel (pages.length + 1)
            (acc ++ suf.flatten.map normalize_project)).2) := by
  intro suf
  induction suf with
  | nil =>
    intro k fuel acc hdrop hlen
    have hk : k = pages.length := by simpa using hlen
    subst hk
    simp
  | cons l rest ih =>
    intro k fuel acc hdrop hlen
    have hklt : k < pages.length := by
      simp only [List.length_cons] at hlen
      omega
    have hget : r (k + 1) 0 = PageResp.success l := by
      rw [hr k hklt, hdrop]
      rfl
    have hlmem : l ∈ pages := by
      have hmem : l ∈ pages.drop k := by
        rw [hdrop]
        exact List.mem_cons_self l rest
      exact List.mem_of_mem_drop hmem
    have hlne : l ≠ [] := hne l hlmem
    have hlemp : l.isEmpty = false := by
      cases l with
      | nil => exact absurd rfl hlne
      | cons x xs => rfl
    have hdrop' : pages.drop (k + 1) = rest := by
      have h1 : (pages.drop k).drop 1 = pages.drop (k + 1) :=
        List.drop_drop 1 k pages
      rw [← h1, hdrop]
      rfl
    have hlen' : (k + 1) + rest.length = pages.length := by
      simp only [List.length_cons] at hlen
      omega
    have hstep := fetchLoop_step_nonempty mr b (fuel + rest.length) acc
      (fetchPageLoop_success mr b hget) hlemp
    have hih := ih (k + 1) fuel (acc ++ l.map normalize_project) hdrop' hlen'
    have hev : (List.range (rest.length + 1)).map
        (fun i => Event.request (i + k + 1) 0) =
        Event.request (k + 1) 0 ::
          (List.range rest.length).map
            (fun i => Event.request (i + (k + 1) + 1) 0) := by
      rw [List.range_succ_eq_map, List.map_cons, List.map_map]
      refine congrArg₂ List.cons (by simp) ?_
      refine List.map_congr_left ?_
      intro i hi
      simp only [Function.comp_apply, Nat.succ_eq_add_one]
      congr 1
      omega
    have hacc : (acc ++ l.map normalize_project) ++
        rest.flatten.map normalize_project =
        acc ++ (l :: rest).flatten.map normalize_project := by
      rw [List.flatten_cons, List.map_append, List.append_assoc]
    calc fetchLoop r mr b (fuel + (l :: rest).length) (k + 1) acc
        = fetchLoop r mr b ((fuel + rest.length) + 1) (k + 1) acc := by
          simp only [List.length_cons]
          ring_nf
      _ = ([Event.request (k + 1) 0] ++
            (fetchLoop r mr b (fuel + rest.length) (k + 2)
              (acc ++ l.map normalize_project)).1,
           (fetchLoop r mr b (fuel + rest.length) (k + 2)
              (acc ++ l.map normalize_project)).2) := hstep
      _ = _ := by
          rw [hih]
          simp only [List.length_cons, hev, hacc, List.singleton_append,
            List.cons_append, List.nil_append]

/-- C1: for a remote whose pages are a finite run of non-empty pages
followed by empty pages, the fetch (with enough fuel for the unbounded
source loop) returns exactly the concatenation of the pages' normalized
records, in page order, making exactly one attempt-0 request per page
(including the final empty page), and terminates successfully at the first
empty page.  With `pages = []` this covers the empty-first-page case: the
result is `FetchOut.ok []`, not an error. -/
theorem fetch_projects_pagination (pages : List (List RawProject))
    (hne : ∀ l ∈ pages, l ≠ []) (mr : Int) (b : ℚ) (fuel : Nat)
    (hfuel : pages.length < fuel) :
    fetch_projects (remoteOfPages pages) mr b fuel =
      ((List.range (pages.length + 1)).map (fun i => Event.request (i + 1) 0),
       FetchOut.ok (pages.flatten.map normalize_project)) := by
  have hr : ∀ i, i < pages.length →
      remoteOfPages pages (i + 1) 0 =
        PageResp.success ((pages.drop i).headD []) := fun i _ => rfl
  obtain ⟨m, hm⟩ : ∃ m, fuel = (m + 1) + pages.length :=
    ⟨fuel - pages.length - 1, by omega⟩
  subst hm
  have hpre := fetchLoop_prefix (remoteOfPages pages) mr b pages hr hne
    pages 0 (m + 1) [] (by simp) (by simp)
  simp only [Nat.zero_add, Nat.add_zero, List.nil_append] at hpre
  have hempty : remoteOfPages pages (pages.length + 1) 0 =
      PageResp.success [] := by
    show PageResp.success ((pages.drop pages.length).headD []) = _
    rw [List.drop_length]
    rfl
  have htail := fetchLoop_step_empty mr b m
    (pages.flatten.map normalize_project)
    (fetchPageLoop_success mr b hempty)
  rw [fetch_projects, hpre, htail]
  rw [List.range_succ, List.map_append]
  simp

/-- Witness for C1: two one-record pages followed by the empty page. -/
theorem fetch_projects_pagination_witness :
    fetch_projects (remoteOfPages [[rawFull], [rawShortPath]]) 5 2 3 =
      ((List.range ([[rawFull], [rawShortPath]].length + 1)).map
          (fun i => Event.request (i + 1) 0),
       FetchOut.ok
         (([[rawFull], [rawShortPath]] :
             List (List RawProject)).flatten.map normalize_project)) :=
  fetch_projects_pagination [[rawFull], [rawShortPath]] (by decide) 5 2 3
    (by decide)

/-- Helper: on a page whose every request fails with a transient code, the
retry loop makes one request per attempt value from `a` up to `maxRetries`,
sleeping `backoff ^ i` before the request at attempt `i`, and then
propagates the error. -/
theorem fetchPageLoop_always_fail (r : Remote) (c : Option Int)
    (hc : transient c = true) (mr : Nat) (b : ℚ) (page : Nat)
    (hfail : ∀ a, r page a = PageResp.failure c) :
    ∀ (d a : Nat), a + d = mr →
      fetchPageLoop r (mr : Int) b page a =
        (((List.range d).map (fun i =>
            [Event.request page (a + i),
             Event.sleep (b ^ (a + i + 1))])).flatten ++
           [Event.request page (a + d)],
         Except.error c) := by
  intro d
  induction d with
  | zero =>
    intro a ha
    have hstop : ¬(transient c = true ∧ (a : Int) < (mr : Int)) := by
      rintro ⟨-, hlt⟩
      omega
    rw [fetchPageLoop_stop (mr : Int) b (hfail a) hstop]
    simp
  | succ d ihd =>
    intro a ha
    have hlt : (a : Int) < (mr : Int) := by
      have : a < mr := by omega
      exact_mod_cast this
    rw [fetchPageLoop_retry (mr : Int) b (hfail a) hc hlt,
      ihd (a + 1) (by omega)]
    have hev : (List.range (d + 1)).map (fun i =>
        [Event.request page (a + i), Event.sleep (b ^ (a + i + 1))]) =
        [Event.request page a, Event.sleep (b ^ (a + 1))] ::
          (List.range d).map (fun i =>
            [Event.request page (a + 1 + i),
             Event.sleep (b ^ (a + 1 + i + 1))]) := by
      rw [List.range_succ_eq_map, List.map_cons, List.map_map]
      refine congrArg₂ List.cons (by simp) ?_
      refine List.map_congr_left ?_
      intro i hi
      have h1 : a + (i + 1) = a + 1 + i := by omega
      have h2 : a + (i + 1) + 1 = a + 1 + i + 1 := by omega
      simp only [Function.comp_apply, Nat.succ_eq_add_one, h1, h2]
    rw [hev]
    have h3 : a + 1 + d = a + (d + 1) := by omega
    simp only [List.flatten_cons, List.cons_append, List.nil_append,
      List.append_assoc, h3]

/-- C2: when every request for the page after a run of good pages fails
with a transient code, the fetch requests each good page once (attempt
counter 0 — it resets on page advance), then makes exactly
`max_retries + 1` requests for the failing page at attempt values
`0..max_retries`, sleeping `backoff ^ attempt` seconds before the retry at
each attempt `1..max_retries`, and finally propagates the error. -/
theorem fetch_projects_retry_bound (pages : List (List RawProject))
    (hne : ∀ l ∈ pages, l ≠ []) (c : Option Int) (hc : transient c = true)
    (mr : Nat) (b : ℚ) (fuel : Nat) (hfuel : pages.length < fuel) :
    fetch_projects (remoteFailAfter pages c) (mr : Int) b fuel =
      ((List.range pages.length).map (fun i => Event.request (i + 1) 0) ++
        ((((List.range mr).map (fun i =>
            [Event.request (pages.length + 1) i,
             Event.sleep (b ^ (i + 1))])).flatten) ++
          [Event.request (pages.length + 1) mr]),
       FetchOut.err c) := by
  have hr : ∀ i, i < pages.length →
      remoteFailAfter pages c (i + 1) 0 =
        PageResp.success ((pages.drop i).headD []) := by
    intro i hi
    show (if i + 1 ≤ pages.length then _ else _) = _
    rw [if_pos (by omega)]
    rfl
  obtain ⟨m, hm⟩ : ∃ m, fuel = (m + 1) + pages.length :=
    ⟨fuel - pages.length - 1, by omega⟩
  subst hm
  have hpre := fetchLoop_prefix (remoteFailAfter pages c) (mr : Int) b pages
    hr hne pages 0 (m + 1) [] (by simp) (by simp)
  simp only [Nat.zero_add, Nat.add_zero, List.nil_append] at hpre
  have hfail : ∀ a, remoteFailAfter pages c (pages.length + 1) a =
      PageResp.failure c := by
    intro a
    show (if pages.length + 1 ≤ pages.length then _ else _) = _
    rw [if_neg (by omega)]
  have hchain := fetchPageLoop_always_fail (remoteFailAfter pages c) c hc
    mr b (pages.length + 1) hfail mr 0 (by omega)
  simp only [Nat.zero_add] at hchain
  have htail := fetchLoop_step_err (mr : Int) b m
    (pages.flatten.map normalize_project) hchain
  rw [fetch_projects, hpre, htail]

/-- Witness for C2: one good page, then a page that always answers 503,
with two retries allowed (three requests, sleeps of 2 and 4 seconds). -/
theorem fetch_projects_retry_bound_witness :
    fetch_projects (remoteFailAfter [[rawFull]] (some 503)) ((2 : Nat) : Int)
        2 2 =
      ((List.range ([[rawFull]] : List (List RawProject)).length).map
          (fun i => Event.request (i + 1) 0) ++
        ((((List.range 2).map (fun i =>
            [Event.request (([[rawFull]] :
                List (List RawProject)).length + 1) i,
             Event.sleep ((2 : ℚ) ^ (i + 1))])).flatten) ++
          [Event.request (([[rawFull]] :
              List (List RawProject)).length + 1) 2]),
       FetchOut.err (some 503)) :=
  fetch_projects_retry_bound [[rawFull]] (by decide) (some 503) (by decide)
    2 2 2 (by decide)

/-- C3: a page failing with a non-transient code (or no code at all)
aborts the fetch after a single request for that page, regardless of the
remaining retry budget — no sleep, no partial sequence, no further pages;
and a code is transient exactly when it lies in
the five-element set 429, 500, 502, 503, 504. -/
theorem fetch_projects_fatal_short_circuit (pages : List (List RawProject))
    (hne : ∀ l ∈ pages, l ≠ []) (c : Option Int) (hc : transient c = false)
    (mr : Int) (b : ℚ) (fuel : Nat) (hfuel : pages.length < fuel) :
    fetch_projects (remoteFailAfter pages c) mr b fuel =
      ((List.range pages.length).map (fun i => Event.request (i + 1) 0) ++
        [Event.request (pages.length + 1) 0],
       FetchOut.err c) ∧
    (∀ c' : Option Int, transient c' = true ↔
      (c' = some 429 ∨ c' = some 500 ∨ c' = some 502 ∨ c' = some 503 ∨
        c' = some 504)) := by
  constructor
  · have hr : ∀ i, i < pages.length →
        remoteFailAfter pages c (i + 1) 0 =
          PageResp.success ((pages.drop i).headD []) := by
      intro i hi
      show (if i + 1 ≤ pages.length then _ else _) = _
      rw [if_pos (by omega)]
      rfl
    obtain ⟨m, hm⟩ : ∃ m, fuel = (m + 1) + pages.length :=
      ⟨fuel - pages.length - 1, by omega⟩
    subst hm
    have hpre := fetchLoop_prefix (remoteFailAfter pages c) mr b pages
      hr hne pages 0 (m + 1) [] (by simp) (by simp)
    simp only [Nat.zero_add, Nat.add_zero, List.nil_append] at hpre
    have hfail : remoteFailAfter pages c (pages.length + 1) 0 =
        PageResp.failure c := by
      show (if pages.length + 1 ≤ pages.length then _ else _) = _
      rw [if_neg (by omega)]
    have hstop : ¬(transient c = true ∧ ((0 : Nat) : Int) < mr) := by
      rintro ⟨hct, -⟩
      rw [hc] at hct
      exact Bool.false_ne_true hct
    have hone := fetchPageLoop_stop mr b hfail hstop
    have htail := fetchLoop_step_err mr b m
      (pages.flatten.map normalize_project) hone
    rw [fetch_projects, hpre, htail]
  · intro c'
    cases c' with
    | none => simp [transient]
    | some n =>
      simp [transient]
      tauto

/-- Witness for C3: one good page, then a 404, with a retry budget of 5
that is never used. -/
theorem fetch_projects_fatal_short_circuit_witness :
    fetch_projects (remoteFailAfter [[rawFull]] (some 404)) 5 2 2 =
      ((List.range ([[rawFull]] : List (List RawProject)).length).map
          (fun i => Event.request (i + 1) 0) ++
        [Event.request (([[rawFull]] :
            List (List RawProject)).length + 1) 0],
       FetchOut.err (some 404)) :=
  (fetch_projects_fatal_short_circuit [[rawFull]] (by decide) (some 404)
    (by decide) 5 2 2 (by decide)).1

/-- C10: with `max_retries ≤ 0` (the attempt counter starts at 0 and
`attempt >= max_retries` already holds), the fetch makes exactly one
request per page it visits — the whole trace is one attempt-0 request per
consecutive page, with no sleep — and any failure, even with a transient
code, propagates immediately from the single request. -/
theorem fetch_projects_no_retry_nonpositive (r : Remote) (mr : Int)
    (hmr : mr ≤ 0) (b : ℚ) (fuel : Nat) :
    (∃ n, (fetch_projects r mr b fuel).1 =
        (List.range n).map (fun i => Event.request (i + 1) 0)) ∧
    (∀ page c, r page 0 = PageResp.failure c →
      fetchPageLoop r mr b page 0 = ([Event.request page 0],
        Except.error c)) := by
  have hstop : ∀ c, ¬(transient c = true ∧ ((0 : Nat) : Int) < mr) := by
    rintro c ⟨-, hlt⟩
    omega
  constructor
  · suffices h : ∀ fuel page acc, ∃ n, (fetchLoop r mr b fuel page acc).1 =
        (List.range n).map (fun i => Event.request (i + page) 0) by
      obtain ⟨n, hn⟩ := h fuel 1 []
      exact ⟨n, by rw [fetch_projects]; exact hn⟩
    intro fuel
    induction fuel with
    | zero => exact fun page acc => ⟨0, rfl⟩
    | succ fuel ih =>
      intro page acc
      cases hresp : r page 0 with
      | success items =>
        have hpl := fetchPageLoop_success mr b hresp
        cases hitems : items.isEmpty with
        | true =>
          have hnil : items = [] := by
            cases items with
            | nil => rfl
            | cons x xs => exact absurd hitems (by simp)
          subst hnil
          refine ⟨1, ?_⟩
          rw [fetchLoop_step_empty mr b fuel acc hpl]
          simp [List.range_succ]
        | false =>
          obtain ⟨n', hn'⟩ := ih (page + 1) (acc ++ items.map normalize_project)
          refine ⟨n' + 1, ?_⟩
          rw [fetchLoop_step_nonempty mr b fuel acc hpl hitems]
          simp only [hn', List.singleton_append]
          rw [List.range_succ_eq_map, List.map_cons, List.map_map]
          refine congrArg₂ List.cons (by simp) ?_
          refine List.map_congr_left ?_
          intro i hi
          simp only [Function.comp_apply, Nat.succ_eq_add_one]
          congr 1
          omega
      | failure c =>
        have hpl := fetchPageLoop_stop mr b hresp (hstop c)
        refine ⟨1, ?_⟩
        rw [fetchLoop_step_err mr b fuel acc hpl]
        simp [List.range_succ]
  · intro page c h
    exact fetchPageLoop_stop mr b h (hstop c)

/-- Witness for C10: with `max_retries = 0` a request failing with the
transient code 503 still propagates at once. -/
theorem fetch_projects_no_retry_nonpositive_witness :
    fetchPageLoop (remoteFailAfter [] (some 503)) 0 2 1 0 =
      ([Event.request 1 0], Except.error (some 503)) :=
  (fetch_projects_no_retry_nonpositive (remoteFailAfter [] (some 503)) 0
    (by decide) 2 2).2 1 (some 503) (by decide)

/-- Counterexample to C8: a directory-creation failure at logger
construction propagates as an exception instead of being silently
swallowed — source lines 101-104 run `os.makedirs` with no `try/except`,
and `main` constructs the logger at line 325, outside its `try` block. -/
theorem logger_init_mkdir_fail_cex :
    loggerInit (some "logs/run.log") false ⟨[], [], []⟩ =
      Except.error "makedirs raised" := by
  rfl

/-- C8 amended: every log call is total (never raises) and writes the one
timestamped line to standard error; when a file is configured and the
append succeeds the IDENTICAL line is appended to the file; when the
append fails the failure is swallowed — standard error still gets the
line and the call returns normally; with no file configured nothing is
appended.  (Directory creation happens at construction and its failure
propagates: see the counterexample.) -/
theorem logger_log_best_effort (f : String) (w : LogWorld)
    (ts msg : String) :
    (loggerLog (some f) true true w ts msg).stderrLines =
        w.stderrLines ++ [logLine ts msg] ∧
    (loggerLog (some f) true true w ts msg).fileLines =
        w.fileLines ++ [logLine ts msg] ∧
    (loggerLog (some f) true false w ts msg).stderrLines =
        w.stderrLines ++ [logLine ts msg] ∧
    (loggerLog (some f) true false w ts msg).fileLines = w.fileLines ∧
    (loggerLog none true true w ts msg).fileLines = w.fileLines :=
  ⟨rfl, rfl, rfl, rfl, rfl⟩

/-- Counterexample to C9: the usage-error exit code (argparse exits with
status 2 from `parser.error`) is NOT in a numeric space separate from the
runtime codes — it coincides with the authentication-failure exit code
that `main` returns. -/
theorem usage_exit_code_collision :
    argparseUsageExitCode =
      runtimeExitCode (Except.error FetchExc.authErr) := rfl

/-- C9 amended: usage errors (missing connection parameters, both
combined-output formats at once, or no output destination at all) are
exactly the conditions `parse_args` rejects; they are detected before any
network activity and exit with argparse's status 2 — which collides with
the authentication-failure code; the runtime codes are 0 success, 2
authentication failure, 3 GitLab API failure, 1 unexpected failure,
mutually distinct. -/
theorem main_exit_codes_amended (a : ArgsIn) (res : Except FetchExc Unit) :
    (parseRejects a = true → mainModel a res = (2, false)) ∧
    (parseRejects a = true ↔
      ((strFalsy a.url1 || strFalsy a.token1 || strFalsy a.url2 ||
        strFalsy a.token2) = true ∨
       (!strFalsy a.out_json && !strFalsy a.out_csv) = true ∨
       (strFalsy a.out_json && strFalsy a.out_csv && strFalsy a.json_pfx &&
        strFalsy a.csv_pfx) = true)) ∧
    (runtimeExitCode (Except.ok ()) = 0 ∧
     runtimeExitCode (Except.error FetchExc.authErr) = 2 ∧
     runtimeExitCode (Except.error FetchExc.gitlabErr) = 3 ∧
     runtimeExitCode (Except.error FetchExc.otherErr) = 1 ∧
     argparseUsageExitCode = 2) := by
  refine ⟨?_, ?_, rfl, rfl, rfl, rfl, rfl⟩
  · intro h
    unfold parseRejects at h
    cases hp : parse_args_check a with
    | error e => simp [mainModel, hp, argparseUsageExitCode]
    | ok v =>
      rw [hp] at h
      exact absurd h (by simp)
  · unfold parseRejects parse_args_check
    split_ifs with h1 h2 h3 <;> simp_all

/-- Witness for the amended C9: requesting both combined formats exits
with code 2 before any network activity. -/
theorem main_exit_codes_amended_witness :
    mainModel argsBothOutputs (Except.ok ()) = (2, false) :=
  (main_exit_codes_amended argsBothOutputs (Except.ok ())).1 (by decide)
